import Mathlib

/-!
Verification of the command broker (`src/command-queue.ts`) of the
Roblox Studio MCP bridge.

The broker is a promise-based command queue: MCP tool handlers enqueue
commands, the HTTP bridge dequeues them for the Studio plugin and resolves
them when the plugin posts results.  A periodic sweep rejects commands
that exceed their timeout, and heartbeats drive a connection-liveness flag.

Shallow embedding conventions:
  * `Date.now()` becomes an explicit `now : Nat` argument (ms since epoch).
  * The UUID generated by `uuidv4()` becomes an explicit `newId : Nat`
    argument; freshness (the negligible-collision assumption) is an explicit
    hypothesis where needed.
  * The `resolve`/`reject` promise callbacks of a pending command are
    modelled as emitted `Event`s: calling `cmd.resolve(result)` emits
    `Event.resolved cmd.id result`, calling `cmd.reject(err)` emits
    `Event.rejected cmd.id msg`.
  * The JS `Map` of pending commands is modelled as an association list
    (insertion ordered, matching JS `Map` iteration order).
  * Opaque `unknown` JSON values (command params, result data) are modelled
    as strings: the broker never inspects them.
-/

namespace Broker

/-- Opaque parameter mapping (`Record<string, unknown>`); the broker treats
it as an uninterpreted payload. -/
abbrev Params := List (String × String)

/-- `PendingCommand` from `types.ts` (minus the two promise callbacks,
which are modelled as events). -/
structure PendingCommand where
  id : Nat
  type : String
  params : Params
  createdAt : Nat
  deriving Repr, DecidableEq

/-- `CommandResult` from `types.ts`: the answer returned by the plugin for a command. -/
structure CommandResult where
  id : Nat
  success : Bool
  data : Option String
  error : Option String
  deriving Repr, DecidableEq

/-- `SerializedCommand` from `types.ts`: the callback-free projection of a
command served to the plugin via GET /poll. -/
structure SerializedCommand where
  id : Nat
  type : String
  params : Params
  deriving Repr, DecidableEq

/-- `ConnectionState` from `types.ts`. -/
structure ConnectionState where
  connected : Bool
  lastHeartbeat : Nat
  pluginVersion : Option String := none
  studioSessionId : Option String := none
  deriving Repr, DecidableEq

/-- `QueueConfig` from `command-queue.ts`. -/
structure QueueConfig where
  commandTimeoutMs : Nat
  heartbeatTimeoutMs : Nat
  deriving Repr, DecidableEq

/-- A promise-settlement event: the callback of which command fired and how. -/
inductive Event where
  | resolved (id : Nat) (result : CommandResult)
  | rejected (id : Nat) (msg : String)
  deriving Repr, DecidableEq

/-- The command id whose promise an event settles. -/
def Event.cid : Event → Nat
  | .resolved id _ => id
  | .rejected id _ => id

/-- The mutable state of `class CommandQueue`. -/
structure CommandQueue where
  waitingQueue : List PendingCommand
  pendingCommands : List (Nat × PendingCommand)
  connectionState : ConnectionState
  timeoutInterval : Bool
  config : QueueConfig
  deriving Repr, DecidableEq

/-- The constructor `new CommandQueue(config)`: empty collections,
disconnected, sweep timer started. -/
def initQueue (config : QueueConfig) : CommandQueue where
  waitingQueue := []
  pendingCommands := []
  connectionState := { connected := false, lastHeartbeat := 0 }
  timeoutInterval := true
  config := config

/-- JS `Map.get`: look up a key in the insertion-ordered map. -/
def mapGet (m : List (Nat × PendingCommand)) (k : Nat) : Option PendingCommand :=
  (m.find? (fun p => p.1 == k)).map (fun p => p.2)

/-- JS `Map.set`: replace in place if the key exists, else append. -/
def mapSet (m : List (Nat × PendingCommand)) (k : Nat) (v : PendingCommand) :
    List (Nat × PendingCommand) :=
  if m.any (fun p => p.1 == k) then
    m.map (fun p => if p.1 == k then (k, v) else p)
  else
    m ++ [(k, v)]

/-- JS `Map.delete`: drop the entry with the given key. -/
def mapDelete (m : List (Nat × PendingCommand)) (k : Nat) :
    List (Nat × PendingCommand) :=
  m.filter (fun p => !(p.1 == k))

/-- `CommandQueue.isConnected()`: false if the connected flag was never
set; otherwise true iff the elapsed time since the last heartbeat is
strictly below the heartbeat timeout. -/
def isConnected (q : CommandQueue) (now : Nat) : Bool :=
  if !q.connectionState.connected then false
  else (now - q.connectionState.lastHeartbeat) < q.config.heartbeatTimeoutMs

/-- The message of the rejection thrown by `enqueue` when disconnected. -/
def notConnectedMsg : String :=
  "Roblox Studio plugin is not connected. Open Studio and ensure the MCP Bridge plugin is running."

/-- Outcome of `enqueue`: either an immediately rejected promise, or a
pending promise for the freshly queued command. -/
inductive EnqueueResult where
  | rejected (msg : String)
  | queued (id : Nat)
  deriving Repr, DecidableEq

/-- `CommandQueue.enqueue(type, params)`: reject immediately when not
connected, else append a fresh command to the waiting queue. -/
def enqueue (q : CommandQueue) (now : Nat) (newId : Nat) (type : String)
    (params : Params) : CommandQueue × EnqueueResult :=
  if !(isConnected q now) then
    (q, .rejected notConnectedMsg)
  else
    let command : PendingCommand :=
      { id := newId, type := type, params := params, createdAt := now }
    ({ q with waitingQueue := q.waitingQueue ++ [command] }, .queued newId)

/-- `CommandQueue.dequeue()`: pop the head of the waiting queue, move the
command into the pending map, and return its serialized view; `null` when
the queue is empty. -/
def dequeue (q : CommandQueue) : CommandQueue × Option SerializedCommand :=
  match q.waitingQueue with
  | [] => (q, none)
  | command :: rest =>
    ({ q with
        waitingQueue := rest
        pendingCommands := mapSet q.pendingCommands command.id command },
     some { id := command.id, type := command.type, params := command.params })

/-- `CommandQueue.resolve(result)`: look the id up in the pending map; if
absent return false with no side effect, else remove the entry, fire the
resolve callback of that command with the result, and return true. -/
def resolve (q : CommandQueue) (result : CommandResult) :
    CommandQueue × Bool × List Event :=
  match mapGet q.pendingCommands result.id with
  | none => (q, false, [])
  | some _ =>
    ({ q with pendingCommands := mapDelete q.pendingCommands result.id },
     true, [.resolved result.id result])

/-- `CommandQueue.heartbeat(pluginVersion?, studioSessionId?)`: overwrite
the whole connection state. -/
def heartbeat (q : CommandQueue) (now : Nat)
    (pluginVersion studioSessionId : Option String) : CommandQueue :=
  { q with
      connectionState :=
        { connected := true
          lastHeartbeat := now
          pluginVersion := pluginVersion
          studioSessionId := studioSessionId } }

/-- `CommandQueue.getConnectionState()`. -/
def getConnectionState (q : CommandQueue) (now : Nat) : ConnectionState :=
  { q.connectionState with connected := isConnected q now }

/-- `CommandQueue.getStats()`. -/
structure Stats where
  waitingCount : Nat
  pendingCount : Nat
  connected : Bool
  deriving Repr, DecidableEq

/-- `CommandQueue.getStats()`: queue depths plus liveness. -/
def getStats (q : CommandQueue) (now : Nat) : Stats where
  waitingCount := q.waitingQueue.length
  pendingCount := q.pendingCommands.length
  connected := isConnected q now

/-- The timeout rejection message for a command the plugin never polled. -/
def undeliveredMsg (type : String) (timeoutMs : Nat) : String :=
  "Command \x27" ++ type ++ "\x27 timed out after " ++ toString timeoutMs ++
    "ms — plugin never picked it up"

/-- The timeout rejection message for a command the plugin polled but never
answered. -/
def unansweredMsg (type : String) (timeoutMs : Nat) : String :=
  "Command \x27" ++ type ++ "\x27 timed out after " ++ toString timeoutMs ++
    "ms — plugin did not return a result"

/-- Whether the age of a command exceeds the command timeout; the sweep uses the
strict comparison `now - cmd.createdAt > commandTimeoutMs`. -/
def expired (config : QueueConfig) (now : Nat) (cmd : PendingCommand) : Bool :=
  now - cmd.createdAt > config.commandTimeoutMs

/-- One tick of the interval body installed by
`CommandQueue.startTimeoutSweep()`: filter expired commands out of the
waiting queue and reject them, then walk the pending map deleting and
rejecting expired entries. -/
def sweepTick (q : CommandQueue) (now : Nat) : CommandQueue × List Event :=
  let expiredWaiting := q.waitingQueue.filter (fun cmd => expired q.config now cmd)
  let waitingQueue := q.waitingQueue.filter (fun cmd => !(expired q.config now cmd))
  let waitingEvents := expiredWaiting.map (fun cmd =>
    Event.rejected cmd.id (undeliveredMsg cmd.type q.config.commandTimeoutMs))
  let expiredPending := q.pendingCommands.filter (fun p => expired q.config now p.2)
  let pendingCommands := q.pendingCommands.filter (fun p => !(expired q.config now p.2))
  let pendingEvents := expiredPending.map (fun p =>
    Event.rejected p.2.id (unansweredMsg p.2.type q.config.commandTimeoutMs))
  ({ q with waitingQueue := waitingQueue, pendingCommands := pendingCommands },
   waitingEvents ++ pendingEvents)

/-- The rejection message used by `shutdown`. -/
def shutdownMsg : String := "MCP server shutting down"

/-- `CommandQueue.shutdown()`: clear the sweep timer, reject every waiting
and pending command, and empty both collections. -/
def shutdown (q : CommandQueue) : CommandQueue × List Event :=
  let waitingEvents := q.waitingQueue.map (fun cmd => Event.rejected cmd.id shutdownMsg)
  let pendingEvents := q.pendingCommands.map (fun p => Event.rejected p.2.id shutdownMsg)
  ({ q with waitingQueue := [], pendingCommands := [], timeoutInterval := false },
   waitingEvents ++ pendingEvents)

/-- An externally triggered broker operation (with its wall-clock instant
and, for enqueue, the generated UUID). A sweep op only has effect while the
interval timer is installed. -/
inductive Op where
  | enqueueOp (now : Nat) (newId : Nat) (type : String) (params : Params)
  | dequeueOp
  | resolveOp (result : CommandResult)
  | heartbeatOp (now : Nat) (pluginVersion studioSessionId : Option String)
  | sweepOp (now : Nat)
  | shutdownOp
  deriving Repr, DecidableEq

/-- One broker step: dispatch an operation, returning the new state and the
promise-settlement events it fired. -/
def step (q : CommandQueue) : Op → CommandQueue × List Event
  | .enqueueOp now newId type params => ((enqueue q now newId type params).1, [])
  | .dequeueOp => ((dequeue q).1, [])
  | .resolveOp result => let r := resolve q result; (r.1, r.2.2)
  | .heartbeatOp now v s => (heartbeat q now v s, [])
  | .sweepOp now => if q.timeoutInterval then sweepTick q now else (q, [])
  | .shutdownOp => shutdown q

/-- Run a sequence of operations, accumulating the fired events. -/
def run (q : CommandQueue) : List Op → CommandQueue × List Event
  | [] => (q, [])
  | op :: ops =>
    let s := step q op
    let r := run s.1 ops
    (r.1, s.2 ++ r.2)

/-- Ids of the commands in the waiting queue, in order. -/
def waitingIds (q : CommandQueue) : List Nat :=
  q.waitingQueue.map (fun cmd => cmd.id)

/-- Keys of the pending map, in insertion order. -/
def pendingIds (q : CommandQueue) : List Nat :=
  q.pendingCommands.map (fun p => p.1)

/-- All live command ids: waiting first, then pending. -/
def idsOf (q : CommandQueue) : List Nat := waitingIds q ++ pendingIds q

/-- Well-formedness of a broker state: no id occurs twice across the two
collections, and every pending entry is stored under its own id. -/
def WF (q : CommandQueue) : Prop :=
  (idsOf q).Nodup ∧ ∀ p ∈ q.pendingCommands, p.2.id = p.1

instance (q : CommandQueue) : Decidable (WF q) := by
  unfold WF; infer_instance

/-- The ids of the commands settled by a list of events. -/
def eventIds (evs : List Event) : List Nat := evs.map Event.cid

/-- The UUIDs an operation list would feed to `enqueue`. -/
def enqueueIds : List Op → List Nat
  | [] => []
  | .enqueueOp _ newId _ _ :: ops => newId :: enqueueIds ops
  | _ :: ops => enqueueIds ops

/-- The ids `enqueue` actually queued along a run (those accepted while
connected). -/
def queuedIds (q : CommandQueue) : List Op → List Nat
  | [] => []
  | op :: ops =>
    (match op with
     | .enqueueOp now newId _ _ => if isConnected q now then [newId] else []
     | _ => []) ++ queuedIds (step q op).1 ops

/-- The fresh ids an operation introduces into the state (empty unless it
is an enqueue accepted while connected). -/
def opNewIds (q : CommandQueue) : Op → List Nat
  | .enqueueOp now newId _ _ => if isConnected q now then [newId] else []
  | _ => []

/-- The per-step facts driving the trace induction: the step preserves
well-formedness, fires pairwise-distinct settlement events only for
currently live ids, and the live ids afterwards are exactly the previously
live unsettled ids plus the freshly enqueued ones. -/
def StepOk (q q1 : CommandQueue) (evs : List Event) (new : List Nat) : Prop :=
  WF q1 ∧
  (eventIds evs).Nodup ∧
  (∀ id ∈ eventIds evs, id ∈ idsOf q) ∧
  (∀ id, id ∈ idsOf q1 ↔ (id ∈ idsOf q ∧ id ∉ eventIds evs) ∨ id ∈ new)

/-- Whether an operation is a heartbeat (the only op that can make
liveness true). -/
def Op.isHeartbeat : Op → Bool
  | .heartbeatOp _ _ _ => true
  | _ => false

/-- The default timeouts from `DEFAULT_BRIDGE_CONFIG` in `types.ts`. -/
def sampleConfig : QueueConfig where
  commandTimeoutMs := 30000
  heartbeatTimeoutMs := 10000

/-- A sample command, used to instantiate theorems at concrete inputs. -/
def sampleCmdA : PendingCommand where
  id := 1
  type := "get_children"
  params := [("path", "game.Workspace")]
  createdAt := 0

/-- A second sample command with a distinct id. -/
def sampleCmdB : PendingCommand where
  id := 2
  type := "create_instance"
  params := []
  createdAt := 5

/-- A connected broker holding one waiting and one pending command. -/
def sampleQueue : CommandQueue where
  waitingQueue := [sampleCmdA]
  pendingCommands := [(2, sampleCmdB)]
  connectionState := { connected := true, lastHeartbeat := 0 }
  timeoutInterval := true
  config := sampleConfig

/-- A broker holding a single waiting command whose age at t = 30000 is
exactly the command timeout — the boundary case of the sweep comparison. -/
def c3EdgeQueue : CommandQueue where
  waitingQueue := [{ id := 9, type := "ping", params := [], createdAt := 0 }]
  pendingCommands := []
  connectionState := { connected := true, lastHeartbeat := 29999 }
  timeoutInterval := true
  config := sampleConfig

/-- A connected broker with empty collections. -/
def emptyConnectedQueue : CommandQueue where
  waitingQueue := []
  pendingCommands := []
  connectionState := { connected := true, lastHeartbeat := 0 }
  timeoutInterval := true
  config := sampleConfig

/-- A concrete operation prefix: heartbeat, enqueue, deliver. -/
def c1pre : List Op :=
  [Op.heartbeatOp 0 none none, Op.enqueueOp 1 42 "ping" [], Op.dequeueOp]

/-- The prefix followed by a shutdown: a terminated trace. -/
def c1ops : List Op := c1pre ++ [Op.shutdownOp]

/-- A concrete mixed trace: enqueue, deliver, resolve, sweep. -/
def c2ops : List Op :=
  [Op.enqueueOp 1 5 "ping" [], Op.dequeueOp,
   Op.resolveOp { id := 5, success := true, data := none, error := none },
   Op.sweepOp 2]

/-! ### Association-list (JS `Map`) lemmas -/

theorem mapGet_eq_none_iff (m : List (Nat × PendingCommand)) (k : Nat) :
    mapGet m k = none ↔ k ∉ m.map (fun p => p.1) := by
  simp only [mapGet, Option.map_eq_none', List.find?_eq_none, beq_iff_eq, List.mem_map]
  constructor
  · rintro h ⟨p, hp, rfl⟩
    exact h p hp rfl
  · intro h p hp hpk
    exact h ⟨p, hp, hpk⟩

theorem mapGet_eq_some_mem (m : List (Nat × PendingCommand)) (k : Nat)
    (c : PendingCommand) (h : mapGet m k = some c) : (k, c) ∈ m := by
  unfold mapGet at h
  cases hf : m.find? (fun p => p.1 == k) with
  | none => rw [hf] at h; simp at h
  | some p =>
    rw [hf] at h
    simp only [Option.map_some', Option.some.injEq] at h
    have hm := List.mem_of_find?_eq_some hf
    have hk : p.1 = k := by simpa using List.find?_some hf
    have : (k, c) = p := by
      cases p
      simp_all
    rw [this]
    exact hm

theorem mapSet_of_not_mem (m : List (Nat × PendingCommand)) (k : Nat)
    (v : PendingCommand) (h : k ∉ m.map (fun p => p.1)) :
    mapSet m k v = m ++ [(k, v)] := by
  have hany : m.any (fun p => p.1 == k) = false := by
    rw [List.any_eq_false]
    intro p hp
    simp only [beq_iff_eq]
    intro hk
    exact h (List.mem_map.mpr ⟨p, hp, hk⟩)
  simp [mapSet, hany]

theorem mem_keys_mapDelete (m : List (Nat × PendingCommand)) (k j : Nat) :
    j ∈ (mapDelete m k).map (fun p => p.1) ↔ j ∈ m.map (fun p => p.1) ∧ j ≠ k := by
  simp only [mapDelete, List.mem_map, List.mem_filter, Bool.not_eq_eq_eq_not,
    Bool.not_true, beq_eq_false_iff_ne, ne_eq]
  constructor
  · rintro ⟨p, ⟨hp, hk⟩, rfl⟩
    exact ⟨⟨p, hp, rfl⟩, hk⟩
  · rintro ⟨⟨p, hp, rfl⟩, hk⟩
    exact ⟨p, ⟨hp, hk⟩, rfl⟩

theorem mapDelete_sublist_keys (m : List (Nat × PendingCommand)) (k : Nat) :
    List.Sublist ((mapDelete m k).map (fun p => p.1)) (m.map (fun p => p.1)) :=
  (List.filter_sublist m).map _

theorem mapGet_mapDelete_self (m : List (Nat × PendingCommand)) (k : Nat) :
    mapGet (mapDelete m k) k = none :=
  (mapGet_eq_none_iff _ _).mpr (fun h => ((mem_keys_mapDelete m k k).mp h).2 rfl)

/-! ### Claim C9 — heartbeat replaces the whole liveness state -/

/-- Claim C9: every `heartbeat(version?, sessionId?)` call replaces the
entire liveness state with `{connected: true, lastHeartbeat: now,
pluginVersion, studioSessionId}`; omitting the optional arguments erases
any previously stored version or session id rather than retaining it. -/
theorem c9_heartbeat_replaces_liveness (q : CommandQueue) (now : Nat)
    (v s : Option String) :
    (heartbeat q now v s).connectionState =
      { connected := true, lastHeartbeat := now,
        pluginVersion := v, studioSessionId := s } ∧
    (heartbeat q now none none).connectionState.pluginVersion = none ∧
    (heartbeat q now none none).connectionState.studioSessionId = none :=
  ⟨rfl, rfl, rfl⟩

/-! ### Claim C4 — enqueue checks liveness first -/

/-- Claim C4: `enqueue(type, params)` checks liveness first: when
disconnected it fails immediately with the not-connected error and mutates
no broker state; when connected it appends exactly one fresh command record
(given id, current timestamp) to the tail of the waiting queue and returns
a pending promise. -/
theorem c4_enqueue_checks_liveness (q : CommandQueue) (now newId : Nat)
    (type : String) (params : Params) :
    if isConnected q now then
      (enqueue q now newId type params).1.waitingQueue =
        q.waitingQueue ++
          [{ id := newId, type := type, params := params, createdAt := now }] ∧
      (enqueue q now newId type params).1.pendingCommands = q.pendingCommands ∧
      (enqueue q now newId type params).1.connectionState = q.connectionState ∧
      (enqueue q now newId type params).2 = .queued newId
    else
      (enqueue q now newId type params).1 = q ∧
      (enqueue q now newId type params).2 = .rejected notConnectedMsg := by
  by_cases h : isConnected q now
  · simp [h, enqueue]
  · simp only [Bool.not_eq_true] at h
    simp [h, enqueue]

/-- Witness for C4: a connected broker accepts and appends; a freshly
constructed (never-heartbeated) broker rejects without mutation. -/
theorem c4_enqueue_checks_liveness_witness :
    ((enqueue emptyConnectedQueue 1 7 "ping" []).1.waitingQueue =
      emptyConnectedQueue.waitingQueue ++
        [{ id := 7, type := "ping", params := [], createdAt := 1 }] ∧
    (enqueue emptyConnectedQueue 1 7 "ping" []).2 = .queued 7) ∧
    ((enqueue (initQueue sampleConfig) 1 7 "ping" []).1 = initQueue sampleConfig ∧
    (enqueue (initQueue sampleConfig) 1 7 "ping" []).2 = .rejected notConnectedMsg) := by
  have h1 := c4_enqueue_checks_liveness emptyConnectedQueue 1 7 "ping" []
  have h2 := c4_enqueue_checks_liveness (initQueue sampleConfig) 1 7 "ping" []
  rw [if_pos (by decide)] at h1
  rw [if_neg (by decide)] at h2
  exact ⟨⟨h1.1, h1.2.2.2⟩, h2⟩

/-! ### Claim C7 — resolve of an unknown id is a harmless no-op -/

/-- Claim C7: `completeResult(result)` with an identifier absent from the
pending map returns false and changes no broker state (no handle fired);
with a present identifier it removes that command, fires its resolve
handle with the result, and returns true. -/
theorem c7_resolve_stale_or_matched (q : CommandQueue) (result : CommandResult) :
    match mapGet q.pendingCommands result.id with
    | none =>
        resolve q result = (q, false, [])
    | some _ =>
        (resolve q result).2.1 = true ∧
        (resolve q result).2.2 = [Event.resolved result.id result] ∧
        (resolve q result).1.waitingQueue = q.waitingQueue ∧
        (resolve q result).1.pendingCommands = mapDelete q.pendingCommands result.id ∧
        mapGet (resolve q result).1.pendingCommands result.id = none := by
  cases h : mapGet q.pendingCommands result.id with
  | none => simp [resolve, h]
  | some cmd =>
    refine ⟨?_, ?_, ?_, ?_, ?_⟩ <;>
      simp [resolve, h, mapGet_mapDelete_self]

/-- Witness for C7: a matched id at a concrete broker is removed and
resolved; an unknown id is ignored without any state change. -/
theorem c7_resolve_stale_or_matched_witness :
    ((resolve sampleQueue { id := 2, success := true, data := some "ok", error := none }).2.1 = true ∧
      (resolve sampleQueue { id := 2, success := true, data := some "ok", error := none }).2.2 =
        [Event.resolved 2 { id := 2, success := true, data := some "ok", error := none }] ∧
      (resolve sampleQueue { id := 2, success := true, data := some "ok", error := none }).1.waitingQueue =
        sampleQueue.waitingQueue ∧
      (resolve sampleQueue { id := 2, success := true, data := some "ok", error := none }).1.pendingCommands =
        mapDelete sampleQueue.pendingCommands 2 ∧
      mapGet (resolve sampleQueue { id := 2, success := true, data := some "ok", error := none }).1.pendingCommands 2 =
        none) ∧
    resolve sampleQueue { id := 99, success := true, data := none, error := none } =
      (sampleQueue, false, []) :=
  ⟨c7_resolve_stale_or_matched sampleQueue
      { id := 2, success := true, data := some "ok", error := none },
    c7_resolve_stale_or_matched sampleQueue
      { id := 99, success := true, data := none, error := none }⟩

/-! ### Claim C5 — delivery is FIFO and emptiness is not an error -/

/-- Claim C5: for two commands A then B enqueued (in that order) while
connected into an empty waiting queue with no intervening delivery, the
first `dequeue()` returns the serialized view of A and the second that of B;
dequeue on an empty waiting queue returns `none` (not an error) without
mutating state, and the serialized view carries only id, type and params. -/
theorem c5_fifo_delivery (q : CommandQueue) (now1 now2 idA idB : Nat)
    (tyA tyB : String) (psA psB : Params)
    (hEmpty : q.waitingQueue = [])
    (hC1 : isConnected q now1 = true)
    (hC2 : isConnected (enqueue q now1 idA tyA psA).1 now2 = true) :
    (dequeue (enqueue (enqueue q now1 idA tyA psA).1 now2 idB tyB psB).1).2 =
      some { id := idA, type := tyA, params := psA } ∧
    (dequeue (dequeue (enqueue (enqueue q now1 idA tyA psA).1 now2 idB tyB psB).1).1).2 =
      some { id := idB, type := tyB, params := psB } ∧
    (∀ p : CommandQueue, p.waitingQueue = [] → dequeue p = (p, none)) := by
  simp only [enqueue, hC1, Bool.not_true, Bool.false_eq_true, if_false, hEmpty,
    List.nil_append] at hC2 ⊢
  refine ⟨?_, ?_, ?_⟩
  · simp [hC2, dequeue]
  · simp [hC2, dequeue]
  · intro p hp
    simp [dequeue, hp]

/-- Witness for C5 at a concrete connected broker with an empty queue. -/
theorem c5_fifo_delivery_witness :
    emptyConnectedQueue.waitingQueue = [] ∧
    isConnected emptyConnectedQueue 1 = true ∧
    isConnected (enqueue emptyConnectedQueue 1 7 "get_services" []).1 2 = true ∧
    ((dequeue (enqueue (enqueue emptyConnectedQueue 1 7 "get_services" []).1 2 8 "get_selection" []).1).2 =
        some { id := 7, type := "get_services", params := [] } ∧
      (dequeue (dequeue (enqueue (enqueue emptyConnectedQueue 1 7 "get_services" []).1 2 8 "get_selection" []).1).1).2 =
        some { id := 8, type := "get_selection", params := [] } ∧
      (∀ p : CommandQueue, p.waitingQueue = [] → dequeue p = (p, none))) :=
  ⟨by decide, by decide, by decide,
    c5_fifo_delivery emptyConnectedQueue 1 2 7 8 "get_services" "get_selection" [] []
      (by decide) (by decide) (by decide)⟩

/-! ### Claim C8 — shutdown fails everything and stops the sweeper -/

/-- Claim C8: `shutdown()` stops the timeout sweeper for good, fails every
command currently in either collection with the shutdown error, and clears
both collections: afterwards both registries are empty, one rejection event
was fired per open command, and no later operation revives the sweeper. -/
theorem c8_shutdown_aborts_all (q : CommandQueue) (cmd : PendingCommand)
    (p : Nat × PendingCommand)
    (hw : cmd ∈ q.waitingQueue) (hp : p ∈ q.pendingCommands) :
    (shutdown q).1.waitingQueue = [] ∧
    (shutdown q).1.pendingCommands = [] ∧
    (shutdown q).1.timeoutInterval = false ∧
    Event.rejected cmd.id shutdownMsg ∈ (shutdown q).2 ∧
    Event.rejected p.2.id shutdownMsg ∈ (shutdown q).2 ∧
    (shutdown q).2.length = q.waitingQueue.length + q.pendingCommands.length ∧
    (∀ now, step (shutdown q).1 (.sweepOp now) = ((shutdown q).1, [])) ∧
    (∀ op, (step (shutdown q).1 op).1.timeoutInterval = false) := by
  refine ⟨rfl, rfl, rfl, ?_, ?_, ?_, ?_, ?_⟩
  · exact List.mem_append_left _ (List.mem_map.mpr ⟨cmd, hw, rfl⟩)
  · exact List.mem_append_right _ (List.mem_map.mpr ⟨p, hp, rfl⟩)
  · simp [shutdown]
  · intro now
    simp [step, shutdown]
  · intro op
    cases op with
    | enqueueOp now newId ty ps =>
        simp only [step, enqueue, shutdown]
        split <;> rfl
    | dequeueOp => simp [step, dequeue, shutdown]
    | resolveOp r => simp [step, resolve, shutdown, mapGet]
    | heartbeatOp now v s => simp [step, heartbeat, shutdown]
    | sweepOp now => simp [step, shutdown]
    | shutdownOp => simp [step, shutdown]

/-! ### Claim C10 — remote-reported failures settle via resolution -/

/-- Claim C10: for every matched result, `resolve` fires the success handle
of the matched command (promise resolution) with the full `CommandResult`
regardless of its success flag; a remote-reported failure (success=false)
therefore settles the promise of the caller via resolution, never via the
rejection path, which is reserved for the sweep (timeouts), shutdown, and
the immediate not-connected rejection of `enqueue`. -/
theorem c10_failure_result_resolves (q : CommandQueue) (result : CommandResult)
    (cmd : PendingCommand)
    (hGet : mapGet q.pendingCommands result.id = some cmd)
    (hFail : result.success = false) :
    (resolve q result).2.2 = [Event.resolved result.id result] ∧
    (∀ id msg, Event.rejected id msg ∉ (resolve q result).2.2) ∧
    (∀ p : CommandQueue, ∀ op : Op, ∀ id : Nat, ∀ msg : String,
      Event.rejected id msg ∈ (step p op).2 →
        (∃ now, op = Op.sweepOp now) ∨ op = Op.shutdownOp) ∧
    (∀ p : CommandQueue, ∀ now id : Nat, ∀ ty : String, ∀ ps : Params,
      isConnected p now = false →
        (enqueue p now id ty ps).2 = EnqueueResult.rejected notConnectedMsg) := by
  refine ⟨?_, ?_, ?_, ?_⟩
  · simp [resolve, hGet]
  · intro id msg
    simp [resolve, hGet]
  · intro p op id msg hmem
    cases op with
    | enqueueOp now newId ty ps => simp [step] at hmem
    | dequeueOp => simp [step] at hmem
    | resolveOp r =>
        cases hg : mapGet p.pendingCommands r.id <;> simp [step, resolve, hg] at hmem
    | heartbeatOp now v s => simp [step] at hmem
    | sweepOp now => exact Or.inl ⟨now, rfl⟩
    | shutdownOp => exact Or.inr rfl
  · intro p now id ty ps hc
    simp [enqueue, hc]

/-- Witness for C10: a matched result with success=false at a concrete
broker resolves the promise with the failing result. -/
theorem c10_failure_result_resolves_witness :
    mapGet sampleQueue.pendingCommands 2 = some sampleCmdB ∧
    (CommandResult.mk 2 false none (some "instance not found")).success = false ∧
    (resolve sampleQueue (CommandResult.mk 2 false none (some "instance not found"))).2.2 =
      [Event.resolved 2 (CommandResult.mk 2 false none (some "instance not found"))] :=
  ⟨by decide, rfl,
    (c10_failure_result_resolves sampleQueue
      (CommandResult.mk 2 false none (some "instance not found")) sampleCmdB
      (by decide) rfl).1⟩

/-! ### Claim C6 — liveness decays with wall-clock time -/

/-- Step preserves the connection state unless the op is a heartbeat. -/
theorem step_connectionState_of_not_heartbeat (q : CommandQueue) (op : Op)
    (h : op.isHeartbeat = false) :
    (step q op).1.connectionState = q.connectionState := by
  cases op with
  | enqueueOp now newId ty ps =>
      simp only [step, enqueue]
      split <;> rfl
  | dequeueOp =>
      cases hw : q.waitingQueue <;> simp [step, dequeue, hw]
  | resolveOp r =>
      cases hg : mapGet q.pendingCommands r.id <;> simp [step, resolve, hg]
  | heartbeatOp now v s => simp [Op.isHeartbeat] at h
  | sweepOp now =>
      by_cases ht : q.timeoutInterval <;> simp [step, sweepTick, ht]
  | shutdownOp => simp [step, shutdown]

/-- Along a run with no heartbeat, the connected flag stays false. -/
theorem run_connected_false_of_no_heartbeat (ops : List Op) (q : CommandQueue)
    (h : ∀ op ∈ ops, op.isHeartbeat = false)
    (hq : q.connectionState.connected = false) :
    (run q ops).1.connectionState.connected = false := by
  induction ops generalizing q with
  | nil => simpa [run]
  | cons op ops ih =>
      have h1 := step_connectionState_of_not_heartbeat q op (h op (by simp))
      have h2 : (step q op).1.connectionState.connected = false := by
        rw [h1]; exact hq
      simpa [run] using ih (step q op).1 (fun o ho => h o (by simp [ho])) h2

/-- Claim C6: `isConnected()` is false while no heartbeat has ever been
recorded; after a heartbeat at time T it is true exactly for checks with
now < T + heartbeatTimeout (absent a newer heartbeat), and in general it is
recomputed from the current clock value on every call: once the flag is
set it equals the comparison of the elapsed time against the timeout. -/
theorem c6_liveness_decays (cfg : QueueConfig) (ops : List Op)
    (q : CommandQueue) (T now : Nat) (v s : Option String)
    (hT : T ≤ now)
    (hNoHb : ∀ op ∈ ops, op.isHeartbeat = false)
    (hConn : q.connectionState.connected = true) :
    (∀ t, isConnected (run (initQueue cfg) ops).1 t = false) ∧
    (isConnected (heartbeat q T v s) now = true ↔
      now < T + q.config.heartbeatTimeoutMs) ∧
    (isConnected q now = true ↔
      now - q.connectionState.lastHeartbeat < q.config.heartbeatTimeoutMs) := by
  refine ⟨?_, ?_, ?_⟩
  · intro t
    have hc := run_connected_false_of_no_heartbeat ops (initQueue cfg) hNoHb rfl
    simp [isConnected, hc]
  · simp only [isConnected, heartbeat, Bool.not_true, Bool.false_eq_true, if_false,
      decide_eq_true_eq]
    omega
  · simp only [isConnected, hConn, Bool.not_true, Bool.false_eq_true, if_false,
      decide_eq_true_eq]

/-- Witness for C6 at concrete times: heartbeat at T=0, checks at 9999. -/
theorem c6_liveness_decays_witness :
    0 ≤ 9999 ∧
    (∀ op ∈ [Op.dequeueOp], op.isHeartbeat = false) ∧
    emptyConnectedQueue.connectionState.connected = true ∧
    ((∀ t, isConnected (run (initQueue sampleConfig) [Op.dequeueOp]).1 t = false) ∧
      (isConnected (heartbeat emptyConnectedQueue 0 none none) 9999 = true ↔
        9999 < 0 + emptyConnectedQueue.config.heartbeatTimeoutMs) ∧
      (isConnected emptyConnectedQueue 9999 = true ↔
        9999 - emptyConnectedQueue.connectionState.lastHeartbeat <
          emptyConnectedQueue.config.heartbeatTimeoutMs)) :=
  ⟨by decide, by decide, by decide,
    c6_liveness_decays sampleConfig [Op.dequeueOp] emptyConnectedQueue 0 9999
      none none (by decide) (by decide) (by decide)⟩

/-- Witness for C8 at a broker holding one waiting and one pending command. -/
theorem c8_shutdown_aborts_all_witness :
    sampleCmdA ∈ sampleQueue.waitingQueue ∧
    (2, sampleCmdB) ∈ sampleQueue.pendingCommands ∧
    ((shutdown sampleQueue).1.waitingQueue = [] ∧
      (shutdown sampleQueue).1.pendingCommands = [] ∧
      (shutdown sampleQueue).1.timeoutInterval = false ∧
      Event.rejected sampleCmdA.id shutdownMsg ∈ (shutdown sampleQueue).2 ∧
      Event.rejected (2, sampleCmdB).2.id shutdownMsg ∈ (shutdown sampleQueue).2 ∧
      (shutdown sampleQueue).2.length =
        sampleQueue.waitingQueue.length + sampleQueue.pendingCommands.length ∧
      (∀ now, step (shutdown sampleQueue).1 (.sweepOp now) = ((shutdown sampleQueue).1, [])) ∧
      (∀ op, (step (shutdown sampleQueue).1 op).1.timeoutInterval = false)) :=
  ⟨by decide, by decide,
    c8_shutdown_aborts_all sampleQueue sampleCmdA (2, sampleCmdB) (by decide) (by decide)⟩

/-! ### Claim C3 — the timeout sweep (corrected: the comparison is strict) -/

/-- Two entries of a map with Nodup keys and equal keys are equal. -/
theorem eq_of_mem_keys_nodup (m : List (Nat × PendingCommand))
    (h : (m.map (fun p => p.1)).Nodup) (p r : Nat × PendingCommand)
    (hp : p ∈ m) (hr : r ∈ m) (hk : p.1 = r.1) : p = r := by
  induction m with
  | nil => cases hp
  | cons a m ih =>
    simp only [List.map_cons, List.nodup_cons] at h
    rcases List.mem_cons.mp hp with rfl | hp' <;>
      rcases List.mem_cons.mp hr with rfl | hr'
    · rfl
    · exact absurd (List.mem_map.mpr ⟨r, hr', hk.symm⟩) h.1
    · exact absurd (List.mem_map.mpr ⟨p, hp', hk⟩) h.1
    · exact ih h.2 hp' hr'

/-- The two sweep messages are distinguishable for every command type and
timeout value. -/
theorem undeliveredMsg_ne_unansweredMsg (ty : String) (t : Nat) :
    undeliveredMsg ty t ≠ unansweredMsg ty t := by
  intro h
  have hl := congrArg String.length h
  simp only [undeliveredMsg, unansweredMsg, String.length_append] at hl
  have h1 : ("ms — plugin never picked it up" : String).length = 30 := by decide
  have h2 : ("ms — plugin did not return a result" : String).length = 35 := by decide
  rw [h1, h2] at hl
  omega

/-- Counterexample to claim C3 as stated: the sweep comparison in the code
is strict (`now - createdAt > commandTimeoutMs`), so a waiting command
whose age equals the timeout exactly is NOT removed (and no handle is
fired), contradicting the claimed "age ≥ timeout is removed and failed". -/
theorem c3_sweep_ge_counterexample :
    ¬ (∀ (q : CommandQueue) (now : Nat), ∀ cmd ∈ q.waitingQueue,
        q.config.commandTimeoutMs ≤ now - cmd.createdAt →
        cmd ∉ (sweepTick q now).1.waitingQueue) := by
  intro h
  exact h c3EdgeQueue 30000 { id := 9, type := "ping", params := [], createdAt := 0 }
    (by decide) (by decide) (by decide)

/-- Claim C3 (amended: "age ≥ timeout" becomes "age > timeout"): on a sweep
tick, every waiting command whose age strictly exceeds the timeout is
removed and rejected with the "never picked it up" message, every pending
command whose age strictly exceeds the timeout is removed and rejected with
the "did not return a result" message, the two messages are distinguishable,
and commands at or below the timeout survive in both collections (both
collections are swept on the same tick). -/
theorem c3_sweep_strict_timeout (q : CommandQueue) (now : Nat)
    (cmd : PendingCommand) (p : Nat × PendingCommand)
    (hWF : WF q)
    (hcw : cmd ∈ q.waitingQueue)
    (hcage : q.config.commandTimeoutMs < now - cmd.createdAt)
    (hpp : p ∈ q.pendingCommands)
    (hpage : q.config.commandTimeoutMs < now - p.2.createdAt) :
    cmd ∉ (sweepTick q now).1.waitingQueue ∧
    Event.rejected cmd.id (undeliveredMsg cmd.type q.config.commandTimeoutMs) ∈
      (sweepTick q now).2 ∧
    p.1 ∉ pendingIds (sweepTick q now).1 ∧
    Event.rejected p.2.id (unansweredMsg p.2.type q.config.commandTimeoutMs) ∈
      (sweepTick q now).2 ∧
    (∀ ty t, undeliveredMsg ty t ≠ unansweredMsg ty t) ∧
    (∀ c ∈ q.waitingQueue, now - c.createdAt ≤ q.config.commandTimeoutMs →
      c ∈ (sweepTick q now).1.waitingQueue) ∧
    (∀ r ∈ q.pendingCommands, now - r.2.createdAt ≤ q.config.commandTimeoutMs →
      r ∈ (sweepTick q now).1.pendingCommands) := by
  have hcexp : expired q.config now cmd = true := by
    simp only [expired, decide_eq_true_eq]
    omega
  have hpexp : expired q.config now p.2 = true := by
    simp only [expired, decide_eq_true_eq]
    omega
  refine ⟨?_, ?_, ?_, ?_, undeliveredMsg_ne_unansweredMsg, ?_, ?_⟩
  · intro hmem
    have := List.of_mem_filter hmem
    rw [hcexp] at this
    simp at this
  · exact List.mem_append_left _
      (List.mem_map.mpr ⟨cmd, List.mem_filter.mpr ⟨hcw, hcexp⟩, rfl⟩)
  · intro hmem
    have hpendNodup : (pendingIds q).Nodup :=
      (List.nodup_append.mp hWF.1).2.1
    obtain ⟨r, hrmem, hrk⟩ := List.mem_map.mp hmem
    have hrpend : r ∈ q.pendingCommands := List.mem_of_mem_filter hrmem
    have hreq : r = p :=
      eq_of_mem_keys_nodup q.pendingCommands hpendNodup r p hrpend hpp hrk
    have := List.of_mem_filter hrmem
    rw [hreq, hpexp] at this
    simp at this
  · exact List.mem_append_right _
      (List.mem_map.mpr ⟨p, List.mem_filter.mpr ⟨hpp, hpexp⟩, rfl⟩)
  · intro c hc hage
    refine List.mem_filter.mpr ⟨hc, ?_⟩
    simp only [expired, Bool.not_eq_true', decide_eq_false_iff_not, not_lt]
    omega
  · intro r hr hage
    refine List.mem_filter.mpr ⟨hr, ?_⟩
    simp only [expired, Bool.not_eq_true', decide_eq_false_iff_not, not_lt]
    omega

/-! ### Per-step lemmas for the trace invariant (claims C1 and C2) -/

/-- Heartbeats never touch the two command collections. -/
theorem stepOk_heartbeat (q : CommandQueue) (now : Nat) (v s : Option String)
    (hWF : WF q) :
    StepOk q (step q (.heartbeatOp now v s)).1 (step q (.heartbeatOp now v s)).2 [] := by
  refine ⟨⟨hWF.1, hWF.2⟩, by simp [step, eventIds], by simp [step, eventIds], ?_⟩
  intro id
  simp [step, eventIds, idsOf, waitingIds, pendingIds, heartbeat]

/-- Enqueue either leaves the state alone (disconnected) or adds exactly
the fresh id. -/
theorem stepOk_enqueue (q : CommandQueue) (now newId : Nat) (ty : String)
    (ps : Params) (hWF : WF q)
    (hFresh : ∀ id ∈ opNewIds q (.enqueueOp now newId ty ps), id ∉ idsOf q) :
    StepOk q (step q (.enqueueOp now newId ty ps)).1
      (step q (.enqueueOp now newId ty ps)).2
      (opNewIds q (.enqueueOp now newId ty ps)) := by
  by_cases hc : isConnected q now
  · have hfresh : newId ∉ idsOf q := hFresh newId (by simp [opNewIds, hc])
    have hq1 : (step q (.enqueueOp now newId ty ps)).1 =
        { q with waitingQueue :=
            q.waitingQueue ++ [{ id := newId, type := ty, params := ps, createdAt := now }] } := by
      simp [step, enqueue, hc]
    have hids : idsOf (step q (.enqueueOp now newId ty ps)).1 =
        q.waitingQueue.map (fun c => c.id) ++ (newId :: pendingIds q) := by
      rw [hq1]
      simp [idsOf, waitingIds, pendingIds]
    have hperm : List.Perm (idsOf (step q (.enqueueOp now newId ty ps)).1)
        (newId :: idsOf q) := by
      rw [hids]
      have h := @List.perm_middle Nat newId
        (q.waitingQueue.map (fun c => c.id)) (pendingIds q)
      simpa [idsOf, waitingIds] using h
    refine ⟨⟨?_, ?_⟩, by simp [step, eventIds], by simp [step, eventIds], ?_⟩
    · exact hperm.nodup_iff.mpr (List.nodup_cons.mpr ⟨hfresh, hWF.1⟩)
    · rw [hq1]
      exact hWF.2
    · intro id
      rw [hperm.mem_iff]
      simp [step, eventIds, opNewIds, hc, List.mem_cons]
      tauto
  · have hc' : isConnected q now = false := by simpa using hc
    have hq1 : (step q (.enqueueOp now newId ty ps)).1 = q := by
      simp [step, enqueue, hc']
    rw [hq1]
    refine ⟨hWF, by simp [step, eventIds], by simp [step, eventIds], ?_⟩
    intro id
    simp [step, eventIds, opNewIds, hc']

/-- Dequeue moves the head of the waiting queue into the pending map,
permuting the live ids. -/
theorem stepOk_dequeue (q : CommandQueue) (hWF : WF q) :
    StepOk q (step q .dequeueOp).1 (step q .dequeueOp).2 [] := by
  cases hw : q.waitingQueue with
  | nil =>
    have hq1 : (step q .dequeueOp).1 = q := by simp [step, dequeue, hw]
    rw [hq1]
    exact ⟨hWF, by simp [step, eventIds], by simp [step, eventIds],
      fun id => by simp [step, eventIds]⟩
  | cons c rest =>
    have hidsq : idsOf q = c.id :: (rest.map (fun x => x.id) ++ pendingIds q) := by
      simp [idsOf, waitingIds, hw]
    have hnodup : (idsOf q).Nodup := hWF.1
    rw [hidsq] at hnodup
    have hnotin : c.id ∉ rest.map (fun x => x.id) ++ pendingIds q :=
      (List.nodup_cons.mp hnodup).1
    have hnotpend : c.id ∉ q.pendingCommands.map (fun p => p.1) := by
      intro hmem
      exact hnotin (List.mem_append_right _ hmem)
    have hset : mapSet q.pendingCommands c.id c = q.pendingCommands ++ [(c.id, c)] :=
      mapSet_of_not_mem _ _ _ hnotpend
    have hq1 : (step q .dequeueOp).1 =
        { q with waitingQueue := rest,
                 pendingCommands := q.pendingCommands ++ [(c.id, c)] } := by
      simp [step, dequeue, hw, hset]
    have hids1 : idsOf (step q .dequeueOp).1 =
        (rest.map (fun x => x.id) ++ pendingIds q) ++ [c.id] := by
      rw [hq1]
      simp [idsOf, waitingIds, pendingIds]
    have hperm : List.Perm (idsOf (step q .dequeueOp).1) (idsOf q) := by
      rw [hids1, hidsq]
      exact List.perm_append_singleton _ _
    refine ⟨⟨hperm.nodup_iff.mpr hWF.1, ?_⟩, by simp [step, eventIds],
      by simp [step, eventIds], ?_⟩
    · rw [hq1]
      intro p hp
      rcases List.mem_append.mp hp with hold | hnew
      · exact hWF.2 p hold
      · rcases List.mem_singleton.mp hnew with rfl
        rfl
    · intro id
      rw [hperm.mem_iff]
      simp [step, eventIds]

/-- Resolve removes exactly the matched id and settles it. -/
theorem stepOk_resolve (q : CommandQueue) (r : CommandResult) (hWF : WF q) :
    StepOk q (step q (.resolveOp r)).1 (step q (.resolveOp r)).2 [] := by
  cases hg : mapGet q.pendingCommands r.id with
  | none =>
    have hq1 : (step q (.resolveOp r)).1 = q := by simp [step, resolve, hg]
    have hev : (step q (.resolveOp r)).2 = [] := by simp [step, resolve, hg]
    rw [hq1, hev]
    exact ⟨hWF, by simp [eventIds], by simp [eventIds], fun id => by simp [eventIds]⟩
  | some cmd =>
    have hmem : (r.id, cmd) ∈ q.pendingCommands := mapGet_eq_some_mem _ _ _ hg
    have hrid : r.id ∈ pendingIds q := List.mem_map.mpr ⟨(r.id, cmd), hmem, rfl⟩
    have hdisj := (List.nodup_append.mp hWF.1).2.2
    have hq1 : (step q (.resolveOp r)).1 =
        { q with pendingCommands := mapDelete q.pendingCommands r.id } := by
      simp [step, resolve, hg]
    have hev : (step q (.resolveOp r)).2 = [Event.resolved r.id r] := by
      simp [step, resolve, hg]
    have hids1 : idsOf (step q (.resolveOp r)).1 =
        waitingIds q ++ (mapDelete q.pendingCommands r.id).map (fun p => p.1) := by
      rw [hq1]
      simp [idsOf, waitingIds, pendingIds]
    refine ⟨⟨?_, ?_⟩, ?_, ?_, ?_⟩
    · rw [hids1]
      exact hWF.1.sublist
        ((mapDelete_sublist_keys q.pendingCommands r.id).append_left (waitingIds q))
    · rw [hq1]
      intro p hp
      exact hWF.2 p (List.mem_of_mem_filter hp)
    · rw [hev]
      simp [eventIds]
    · rw [hev]
      intro id hid
      simp only [eventIds, List.map_cons, List.map_nil, List.mem_singleton, Event.cid] at hid
      subst hid
      exact List.mem_append_right _ hrid
    · intro id
      rw [hids1, hev]
      have hwne : id ∈ waitingIds q → id ≠ r.id := fun hw he => hdisj hw (he ▸ hrid)
      have hdel := mem_keys_mapDelete q.pendingCommands r.id id
      simp only [eventIds, List.map_cons, List.map_nil, Event.cid, List.mem_singleton,
        List.mem_append, List.not_mem_nil, or_false, idsOf, hdel]
      constructor
      · rintro (hw | ⟨hp, hne⟩)
        · exact ⟨Or.inl hw, hwne hw⟩
        · exact ⟨Or.inr (by simpa [pendingIds] using hp), hne⟩
      · rintro ⟨hw | hp, hne⟩
        · exact Or.inl hw
        · exact Or.inr ⟨by simpa [pendingIds] using hp, hne⟩

/-- A sweep tick settles exactly the expired ids of both collections. -/
theorem stepOk_sweep (q : CommandQueue) (now : Nat) (hWF : WF q) :
    StepOk q (step q (.sweepOp now)).1 (step q (.sweepOp now)).2 [] := by
  by_cases ht : q.timeoutInterval = true
  case neg =>
    have ht' : q.timeoutInterval = false := by simpa using ht
    have hq1 : step q (.sweepOp now) = (q, []) := by simp [step, ht']
    rw [hq1]
    exact ⟨hWF, by simp [eventIds], by simp [eventIds], fun id => by simp [eventIds]⟩
  case pos =>
    have hstep : step q (.sweepOp now) = sweepTick q now := by simp [step, ht]
    rw [hstep]
    set A := (q.waitingQueue.filter (fun cmd => expired q.config now cmd)).map
      (fun c => c.id) with hAdef
    set B := (q.waitingQueue.filter (fun cmd => !(expired q.config now cmd))).map
      (fun c => c.id) with hBdef
    set C := (q.pendingCommands.filter (fun p => expired q.config now p.2)).map
      (fun p => p.1) with hCdef
    set D := (q.pendingCommands.filter (fun p => !(expired q.config now p.2))).map
      (fun p => p.1) with hDdef
    have hpermW : List.Perm (A ++ B) (waitingIds q) := by
      have h := (List.filter_append_perm (fun cmd => expired q.config now cmd)
        q.waitingQueue).map (fun c => c.id)
      rw [List.map_append] at h
      exact h
    have hpermP : List.Perm (C ++ D) (pendingIds q) := by
      have h := (List.filter_append_perm (fun p => expired q.config now p.2)
        q.pendingCommands).map (fun p => p.1)
      rw [List.map_append] at h
      exact h
    have hpermAll : List.Perm ((A ++ B) ++ (C ++ D)) (idsOf q) :=
      hpermW.append hpermP
    have hN : ((A ++ B) ++ (C ++ D)).Nodup := hpermAll.nodup_iff.mpr hWF.1
    obtain ⟨hAB, hCD, hdisjOuter⟩ := List.nodup_append.mp hN
    obtain ⟨hA, hB, hdisjAB⟩ := List.nodup_append.mp hAB
    obtain ⟨hC, hD, hdisjCD⟩ := List.nodup_append.mp hCD
    have hC' : (q.pendingCommands.filter (fun p => expired q.config now p.2)).map
        (fun p => p.2.id) = C :=
      List.map_congr_left (fun p hp => hWF.2 p (List.mem_of_mem_filter hp))
    have hev : eventIds (sweepTick q now).2 = A ++ C := by
      have hexp : eventIds (sweepTick q now).2 =
          (q.waitingQueue.filter (fun cmd => expired q.config now cmd)).map
            (fun c => c.id) ++
          (q.pendingCommands.filter (fun p => expired q.config now p.2)).map
            (fun p => p.2.id) := by
        simp only [sweepTick, eventIds, List.map_append, List.map_map]
        congr 1
      rw [hexp, hC', ← hAdef]
    have hids1 : idsOf (sweepTick q now).1 = B ++ D := by
      simp [sweepTick, idsOf, waitingIds, pendingIds]
    refine ⟨⟨?_, ?_⟩, ?_, ?_, ?_⟩
    · rw [hids1]
      refine List.nodup_append.mpr ⟨hB, hD, ?_⟩
      intro a haB haD
      exact hdisjOuter (List.mem_append_right _ haB) (List.mem_append_right _ haD)
    · intro p hp
      simp only [sweepTick] at hp
      exact hWF.2 p (List.mem_of_mem_filter hp)
    · rw [hev]
      refine List.nodup_append.mpr ⟨hA, hC, ?_⟩
      intro a haA haC
      exact hdisjOuter (List.mem_append_left _ haA) (List.mem_append_left _ haC)
    · rw [hev]
      intro id hid
      rw [← hpermAll.mem_iff]
      rcases List.mem_append.mp hid with h | h
      · exact List.mem_append_left _ (List.mem_append_left _ h)
      · exact List.mem_append_right _ (List.mem_append_left _ h)
    · intro id
      have hmemidq : id ∈ idsOf q ↔ (id ∈ A ∨ id ∈ B) ∨ (id ∈ C ∨ id ∈ D) := by
        rw [← hpermAll.mem_iff]
        simp [List.mem_append, or_assoc]
      have f1 : id ∈ B → id ∈ A → False := fun hb ha => hdisjAB ha hb
      have f2 : id ∈ B → id ∈ C → False := fun hb hc =>
        hdisjOuter (List.mem_append_right _ hb) (List.mem_append_left _ hc)
      have f3 : id ∈ D → id ∈ A → False := fun hd ha =>
        hdisjOuter (List.mem_append_left _ ha) (List.mem_append_right _ hd)
      have f4 : id ∈ D → id ∈ C → False := fun hd hc => hdisjCD hc hd
      rw [hids1, hev]
      simp only [List.mem_append, List.not_mem_nil, or_false, hmemidq]
      constructor
      · rintro (hb | hd)
        · exact ⟨Or.inl (Or.inr hb), by rintro (ha | hc); exacts [f1 hb ha, f2 hb hc]⟩
        · exact ⟨Or.inr (Or.inr hd), by rintro (ha | hc); exacts [f3 hd ha, f4 hd hc]⟩
      · rintro ⟨hmem, hnot⟩
        rcases hmem with (ha | hb) | (hc | hd)
        · exact absurd (Or.inl ha) hnot
        · exact Or.inl hb
        · exact absurd (Or.inr hc) hnot
        · exact Or.inr hd

/-- Shutdown settles every live id and empties the state. -/
theorem stepOk_shutdown (q : CommandQueue) (hWF : WF q) :
    StepOk q (step q .shutdownOp).1 (step q .shutdownOp).2 [] := by
  have hkeys : q.pendingCommands.map (fun p => p.2.id) =
      q.pendingCommands.map (fun p => p.1) :=
    List.map_congr_left (fun p hp => hWF.2 p hp)
  have hev : eventIds (step q .shutdownOp).2 = idsOf q := by
    simp only [step, shutdown, eventIds, List.map_append, List.map_map]
    rw [idsOf, waitingIds, pendingIds, ← hkeys]
    congr 1
  have hids1 : idsOf (step q .shutdownOp).1 = [] := by
    simp [step, shutdown, idsOf, waitingIds, pendingIds]
  refine ⟨⟨?_, ?_⟩, ?_, ?_, ?_⟩
  · rw [hids1]
    exact List.nodup_nil
  · intro p hp
    simp [step, shutdown] at hp
  · rw [hev]
    exact hWF.1
  · rw [hev]
    intro id hid
    exact hid
  · intro id
    rw [hids1, hev]
    simp

/-- Every step from a well-formed state with a fresh enqueue id satisfies
the packaged step facts. -/
theorem step_ok (q : CommandQueue) (op : Op) (hWF : WF q)
    (hFresh : ∀ id ∈ opNewIds q op, id ∉ idsOf q) :
    StepOk q (step q op).1 (step q op).2 (opNewIds q op) := by
  cases op with
  | enqueueOp now newId ty ps => exact stepOk_enqueue q now newId ty ps hWF hFresh
  | dequeueOp => exact stepOk_dequeue q hWF
  | resolveOp r => exact stepOk_resolve q r hWF
  | heartbeatOp now v s => exact stepOk_heartbeat q now v s hWF
  | sweepOp now => exact stepOk_sweep q now hWF
  | shutdownOp => exact stepOk_shutdown q hWF

/-- The trace invariant: along any run from a well-formed state with fresh
enqueue ids, the state stays well-formed, settlement events are pairwise
distinct, settled ids are gone from the final state, every id ever seen is
an initial or enqueued id, and live ids never vanish without an event. -/
theorem run_ok (ops : List Op) (q : CommandQueue) (hWF : WF q)
    (hNodup : (enqueueIds ops).Nodup)
    (hFresh : ∀ id ∈ enqueueIds ops, id ∉ idsOf q) :
    WF (run q ops).1 ∧
    (eventIds (run q ops).2).Nodup ∧
    (∀ id ∈ eventIds (run q ops).2, id ∉ idsOf (run q ops).1) ∧
    (∀ id ∈ eventIds (run q ops).2, id ∈ idsOf q ∨ id ∈ enqueueIds ops) ∧
    (∀ id ∈ idsOf (run q ops).1, id ∈ idsOf q ∨ id ∈ enqueueIds ops) ∧
    (∀ id ∈ idsOf q, id ∈ eventIds (run q ops).2 ∨ id ∈ idsOf (run q ops).1) ∧
    (∀ id ∈ queuedIds q ops, id ∈ eventIds (run q ops).2 ∨ id ∈ idsOf (run q ops).1) := by
  induction ops generalizing q with
  | nil =>
    refine ⟨hWF, by simp [run, eventIds], by simp [run, eventIds],
      by simp [run, eventIds], ?_, ?_, by simp [run, queuedIds]⟩
    · intro id hid
      exact Or.inl hid
    · intro id hid
      exact Or.inr hid
  | cons op ops ih =>
    have hsub : ∀ id ∈ opNewIds q op, id ∈ enqueueIds (op :: ops) := by
      intro id hid
      cases op with
      | enqueueOp now newId ty ps =>
        simp only [opNewIds] at hid
        by_cases hc : isConnected q now = true
        · rw [if_pos hc] at hid
          rcases List.mem_singleton.mp hid with rfl
          simp [enqueueIds]
        · rw [if_neg hc] at hid
          cases hid
      | dequeueOp => cases hid
      | resolveOp r => cases hid
      | heartbeatOp now v s => cases hid
      | sweepOp now => cases hid
      | shutdownOp => cases hid
    have hnew_tail : ∀ id ∈ opNewIds q op, id ∉ enqueueIds ops := by
      intro id hid
      cases op with
      | enqueueOp now newId ty ps =>
        simp only [opNewIds] at hid
        by_cases hc : isConnected q now = true
        · rw [if_pos hc] at hid
          rcases List.mem_singleton.mp hid with rfl
          have := hNodup
          simp only [enqueueIds, List.nodup_cons] at this
          exact this.1
        · rw [if_neg hc] at hid
          cases hid
      | dequeueOp => cases hid
      | resolveOp r => cases hid
      | heartbeatOp now v s => cases hid
      | sweepOp now => cases hid
      | shutdownOp => cases hid
    have htail : List.Sublist (enqueueIds ops) (enqueueIds (op :: ops)) := by
      cases op with
      | enqueueOp now newId ty ps =>
        exact List.sublist_cons_self _ _
      | dequeueOp => exact List.Sublist.refl _
      | resolveOp r => exact List.Sublist.refl _
      | heartbeatOp now v s => exact List.Sublist.refl _
      | sweepOp now => exact List.Sublist.refl _
      | shutdownOp => exact List.Sublist.refl _
    have hmemtail : ∀ id ∈ enqueueIds ops, id ∈ enqueueIds (op :: ops) :=
      fun id h => htail.subset h
    have hFresh0 : ∀ id ∈ opNewIds q op, id ∉ idsOf q :=
      fun id h => hFresh id (hsub id h)
    obtain ⟨hWF1, hevN1, hevSub1, hiff⟩ := step_ok q op hWF hFresh0
    have htailN : (enqueueIds ops).Nodup := hNodup.sublist htail
    have hFreshTail : ∀ id ∈ enqueueIds ops, id ∉ idsOf (step q op).1 := by
      intro id hid hin1
      rcases (hiff id).mp hin1 with ⟨hq, _⟩ | hnew
      · exact hFresh id (hmemtail id hid) hq
      · exact hnew_tail id hnew hid
    obtain ⟨ih1, ih2, ih3, ih4, ih5, ih6, ih7⟩ :=
      ih (step q op).1 hWF1 htailN hFreshTail
    have hrun1 : (run q (op :: ops)).1 = (run (step q op).1 ops).1 := rfl
    have hrun2 : (run q (op :: ops)).2 =
        (step q op).2 ++ (run (step q op).1 ops).2 := rfl
    have hevtotal : eventIds (run q (op :: ops)).2 =
        eventIds (step q op).2 ++ eventIds (run (step q op).1 ops).2 := by
      rw [hrun2]
      exact List.map_append _ _ _
    have hev1_not_q1 : ∀ id ∈ eventIds (step q op).2, id ∉ idsOf (step q op).1 := by
      intro id hid hin1
      rcases (hiff id).mp hin1 with ⟨_, hno⟩ | hnew
      · exact hno hid
      · exact hFresh0 id hnew (hevSub1 id hid)
    have hev1_not_tail : ∀ id ∈ eventIds (step q op).2, id ∉ enqueueIds ops := by
      intro id hid hintail
      exact hFresh id (hmemtail id hintail) (hevSub1 id hid)
    have hev1_not_ev2 : ∀ id ∈ eventIds (step q op).2,
        id ∉ eventIds (run (step q op).1 ops).2 := by
      intro id hid hid2
      rcases ih4 id hid2 with h | h
      · exact hev1_not_q1 id hid h
      · exact hev1_not_tail id hid h
    have hev1_not_final : ∀ id ∈ eventIds (step q op).2,
        id ∉ idsOf (run (step q op).1 ops).1 := by
      intro id hid hidf
      rcases ih5 id hidf with h | h
      · exact hev1_not_q1 id hid h
      · exact hev1_not_tail id hid h
    have hq1_up : ∀ id ∈ idsOf (step q op).1,
        id ∈ idsOf q ∨ id ∈ enqueueIds (op :: ops) := by
      intro id h
      rcases (hiff id).mp h with ⟨hq, _⟩ | hnew
      · exact Or.inl hq
      · exact Or.inr (hsub id hnew)
    have hqd : queuedIds q (op :: ops) =
        opNewIds q op ++ queuedIds (step q op).1 ops := by
      cases op <;> rfl
    refine ⟨?_, ?_, ?_, ?_, ?_, ?_, ?_⟩
    · rw [hrun1]
      exact ih1
    · rw [hevtotal]
      refine List.nodup_append.mpr ⟨hevN1, ih2, ?_⟩
      intro a ha ha2
      exact hev1_not_ev2 a ha ha2
    · intro id hid
      rw [hevtotal] at hid
      rw [hrun1]
      rcases List.mem_append.mp hid with h | h
      · exact hev1_not_final id h
      · exact ih3 id h
    · intro id hid
      rw [hevtotal] at hid
      rcases List.mem_append.mp hid with h | h
      · exact Or.inl (hevSub1 id h)
      · rcases ih4 id h with h2 | h2
        · exact hq1_up id h2
        · exact Or.inr (hmemtail id h2)
    · intro id hid
      rw [hrun1] at hid
      rcases ih5 id hid with h2 | h2
      · exact hq1_up id h2
      · exact Or.inr (hmemtail id h2)
    · intro id hid
      rw [hevtotal, hrun1]
      by_cases hev : id ∈ eventIds (step q op).2
      · exact Or.inl (List.mem_append_left _ hev)
      · have hin1 : id ∈ idsOf (step q op).1 :=
          (hiff id).mpr (Or.inl ⟨hid, hev⟩)
        rcases ih6 id hin1 with h | h
        · exact Or.inl (List.mem_append_right _ h)
        · exact Or.inr h
    · intro id hid
      rw [hqd] at hid
      rw [hevtotal, hrun1]
      rcases List.mem_append.mp hid with h | h
      · have hin1 : id ∈ idsOf (step q op).1 := (hiff id).mpr (Or.inr h)
        rcases ih6 id hin1 with h2 | h2
        · exact Or.inl (List.mem_append_right _ h2)
        · exact Or.inr h2
      · rcases ih7 id h with h2 | h2
        · exact Or.inl (List.mem_append_right _ h2)
        · exact Or.inr h2

/-- Running a concatenation of operation lists runs them in sequence. -/
theorem run_append (q : CommandQueue) (l1 l2 : List Op) :
    run q (l1 ++ l2) =
      ((run (run q l1).1 l2).1, (run q l1).2 ++ (run (run q l1).1 l2).2) := by
  induction l1 generalizing q with
  | nil => simp [run]
  | cons op l1 ih =>
    simp [run, ih, List.append_assoc]

/-! ### Claim C2 — a live command sits in exactly one collection -/

/-- Claim C2: after any sequence of operations from a well-formed state
(with never-reused enqueue ids), every live command id is in exactly one of
the waiting queue and the pending map (each is duplicate-free and the two
are disjoint), and every settled id is in neither. -/
theorem c2_live_partition (q : CommandQueue) (ops : List Op)
    (hWF : WF q) (hNodup : (enqueueIds ops).Nodup)
    (hFresh : ∀ id ∈ enqueueIds ops, id ∉ idsOf q) :
    (waitingIds (run q ops).1).Nodup ∧
    (pendingIds (run q ops).1).Nodup ∧
    (∀ id, ¬(id ∈ waitingIds (run q ops).1 ∧ id ∈ pendingIds (run q ops).1)) ∧
    (∀ id ∈ eventIds (run q ops).2,
      id ∉ waitingIds (run q ops).1 ∧ id ∉ pendingIds (run q ops).1) := by
  obtain ⟨h1, _, h3, _, _, _, _⟩ := run_ok ops q hWF hNodup hFresh
  obtain ⟨hw, hp, hdisj⟩ := List.nodup_append.mp h1.1
  refine ⟨hw, hp, ?_, ?_⟩
  · rintro id ⟨hiw, hip⟩
    exact hdisj hiw hip
  · intro id hid
    have hno := h3 id hid
    constructor
    · intro hw2
      exact hno (List.mem_append_left _ hw2)
    · intro hp2
      exact hno (List.mem_append_right _ hp2)

/-- Witness for C2 along a concrete enqueue/deliver/resolve/sweep trace. -/
theorem c2_live_partition_witness :
    WF sampleQueue ∧ (enqueueIds c2ops).Nodup ∧
    (∀ id ∈ enqueueIds c2ops, id ∉ idsOf sampleQueue) ∧
    ((waitingIds (run sampleQueue c2ops).1).Nodup ∧
      (pendingIds (run sampleQueue c2ops).1).Nodup ∧
      (∀ id, ¬(id ∈ waitingIds (run sampleQueue c2ops).1 ∧
        id ∈ pendingIds (run sampleQueue c2ops).1)) ∧
      (∀ id ∈ eventIds (run sampleQueue c2ops).2,
        id ∉ waitingIds (run sampleQueue c2ops).1 ∧
        id ∉ pendingIds (run sampleQueue c2ops).1)) :=
  ⟨by decide, by decide, by decide,
    c2_live_partition sampleQueue c2ops (by decide) (by decide) (by decide)⟩

/-! ### Claim C1 — every queued command settles exactly once -/

/-- Claim C1: along any run from a well-formed state with never-reused
enqueue ids, each command id settles at most once (its handles never fire
twice); every id accepted by `enqueue` while connected is either already
settled or still live (never silently dropped); and if the trace ends with
`shutdown`, every accepted id has settled exactly once — via a matched
result, a timeout sweep, or the shutdown itself. -/
theorem c1_settles_exactly_once (q : CommandQueue) (ops pre : List Op)
    (hWF : WF q) (hNodup : (enqueueIds ops).Nodup)
    (hFresh : ∀ id ∈ enqueueIds ops, id ∉ idsOf q) :
    (∀ id, (eventIds (run q ops).2).count id ≤ 1) ∧
    (∀ id ∈ queuedIds q ops,
      id ∈ eventIds (run q ops).2 ∨ id ∈ idsOf (run q ops).1) ∧
    (ops = pre ++ [Op.shutdownOp] →
      ∀ id ∈ queuedIds q ops, (eventIds (run q ops).2).count id = 1) := by
  obtain ⟨_, h2, _, _, _, _, h7⟩ := run_ok ops q hWF hNodup hFresh
  refine ⟨fun id => List.nodup_iff_count_le_one.mp h2 id, h7, ?_⟩
  intro hpre id hid
  have hfinal : idsOf (run q ops).1 = [] := by
    subst hpre
    rw [run_append]
    simp [run, step, shutdown, idsOf, waitingIds, pendingIds]
  have hmem : id ∈ eventIds (run q ops).2 := by
    rcases h7 id hid with h | h
    · exact h
    · rw [hfinal] at h
      cases h
  have hle := List.nodup_iff_count_le_one.mp h2 id
  have hge := List.count_pos_iff.mpr hmem
  omega

/-- Witness for C1 along a concrete heartbeat/enqueue/deliver/shutdown
trace: the accepted command settles exactly once. -/
theorem c1_settles_exactly_once_witness :
    WF emptyConnectedQueue ∧ (enqueueIds c1ops).Nodup ∧
    (∀ id ∈ enqueueIds c1ops, id ∉ idsOf emptyConnectedQueue) ∧
    c1ops = c1pre ++ [Op.shutdownOp] ∧
    42 ∈ queuedIds emptyConnectedQueue c1ops ∧
    (eventIds (run emptyConnectedQueue c1ops).2).count 42 = 1 :=
  ⟨by decide, by decide, by decide, rfl, by decide,
    (c1_settles_exactly_once emptyConnectedQueue c1ops c1pre
      (by decide) (by decide) (by decide)).2.2 rfl 42 (by decide)⟩

/-- Witness for the amended C3 at a concrete broker, swept at t = 40000
(both sample commands are then strictly past the 30000ms timeout). -/
theorem c3_sweep_strict_timeout_witness :
    WF sampleQueue ∧
    sampleCmdA ∈ sampleQueue.waitingQueue ∧
    sampleQueue.config.commandTimeoutMs < 40000 - sampleCmdA.createdAt ∧
    (2, sampleCmdB) ∈ sampleQueue.pendingCommands ∧
    sampleQueue.config.commandTimeoutMs < 40000 - sampleCmdB.createdAt ∧
    sampleCmdA ∉ (sweepTick sampleQueue 40000).1.waitingQueue ∧
    Event.rejected sampleCmdA.id
        (undeliveredMsg sampleCmdA.type sampleQueue.config.commandTimeoutMs) ∈
      (sweepTick sampleQueue 40000).2 ∧
    (2 : Nat) ∉ pendingIds (sweepTick sampleQueue 40000).1 ∧
    Event.rejected sampleCmdB.id
        (unansweredMsg sampleCmdB.type sampleQueue.config.commandTimeoutMs) ∈
      (sweepTick sampleQueue 40000).2 := by
  have h := c3_sweep_strict_timeout sampleQueue 40000 sampleCmdA (2, sampleCmdB)
    (by decide) (by decide) (by decide) (by decide) (by decide)
  exact ⟨by decide, by decide, by decide, by decide, by decide,
    h.1, h.2.1, h.2.2.1, h.2.2.2.1⟩

end Broker
